import Mathlib

/-!
Verification of the vector compute kernel in `src/wasm/rust/src/lib.rs`.

The kernel keeps three statically allocated `f64` buffers (`BUFFER_A`,
`BUFFER_B`, `RESULT`), each of fixed capacity `CAPACITY = 100_000`, and
exports five numeric operations (`sum`, `dot`, `mul`, `scale`, `sum_simd`)
plus introspection accessors.  Every operation clamps its requested length
to the capacity: `let len = (len as usize).min(CAPACITY);`.

Modelling choices:
* the scalar type `f64` is modelled by an abstract type `α` equipped with
  `0`, `+` and `*`; no algebraic law (associativity, commutativity, ...) is
  assumed, so every theorem below holds in particular for IEEE-754 doubles,
  whose addition is neither associative nor commutative;
* each buffer is modelled as a total function `Nat → α`; the kernel itself
  only ever accesses indices `< CAPACITY` (see `kernel_accesses_in_bounds`);
* each Rust `for`/`while` loop is modelled by a recursive function on the
  loop index whose recursion guard is the source's loop guard;
* the read-only exported operations (`sum`, `dot`, `sum_simd`), whose bodies
  contain only `get` calls and no `set` call, return the buffer state next
  to their scalar result, so that frame properties can be stated; `mul` and
  `scale` return the updated state.
-/

set_option linter.unusedSectionVars false
set_option linter.unusedVariables false

namespace VecKernel

/-- `const CAPACITY: usize = 100_000;` — the capacity of each buffer. -/
def CAPACITY : Nat := 100000

/-- The mutable state of the kernel: the contents of the three static buffers
`BUFFER_A`, `BUFFER_B` and `RESULT`.  Scalars (`f64` in the source) are an
abstract type `α` with `0`, `+` and `*`. -/
structure KernelState (α : Type) where
  bufferA : Nat → α
  bufferB : Nat → α
  result : Nat → α

variable {α : Type} [Zero α] [Add α] [Mul α]

/-- `RESULT.set(i, val)`: write `val` at index `i` of the `RESULT` buffer. -/
def setResult (st : KernelState α) (i : Nat) (val : α) : KernelState α :=
  { st with result := fun j => if j = i then val else st.result j }

/-- `BUFFER_A.set(i, val)`: write `val` at index `i` of buffer `A`. -/
def setBufferA (st : KernelState α) (i : Nat) (val : α) : KernelState α :=
  { st with bufferA := fun j => if j = i then val else st.bufferA j }

/-- The loop of `sum`: `for i in 0..len { s += BUFFER_A.get(i); }`,
started at index `i` with accumulator `s`. -/
def sumLoop (A : Nat → α) (len i : Nat) (s : α) : α :=
  if i < len then sumLoop A len (i + 1) (s + A i) else s
termination_by len - i
decreasing_by omega

/-- `pub extern "C" fn sum(len: u32) -> f64`: clamp the length to `CAPACITY`
and accumulate `BUFFER_A` left to right.  The body performs only `get`
reads, so the state is returned unchanged. -/
def sum (n : Nat) (st : KernelState α) : α × KernelState α :=
  (sumLoop st.bufferA (min n CAPACITY) 0 0, st)

/-- The loop of `dot`: `for i in 0..len { d += BUFFER_A.get(i) * BUFFER_B.get(i); }`. -/
def dotLoop (A B : Nat → α) (len i : Nat) (d : α) : α :=
  if i < len then dotLoop A B len (i + 1) (d + A i * B i) else d
termination_by len - i
decreasing_by omega

/-- `pub extern "C" fn dot(len: u32) -> f64`: clamp the length to `CAPACITY`
and accumulate the pairwise products left to right.  The body performs only
`get` reads, so the state is returned unchanged. -/
def dot (n : Nat) (st : KernelState α) : α × KernelState α :=
  (dotLoop st.bufferA st.bufferB (min n CAPACITY) 0 0, st)

/-- The loop of `mul`: `for i in 0..len { RESULT.set(i, BUFFER_A.get(i) * BUFFER_B.get(i)); }`. -/
def mulLoop (len i : Nat) (st : KernelState α) : KernelState α :=
  if i < len then mulLoop len (i + 1) (setResult st i (st.bufferA i * st.bufferB i)) else st
termination_by len - i
decreasing_by omega

/-- `pub extern "C" fn mul(len: u32)`: clamp the length to `CAPACITY` and
store the elementwise products in `RESULT`. -/
def mul (n : Nat) (st : KernelState α) : KernelState α :=
  mulLoop (min n CAPACITY) 0 st

/-- The loop of `scale`: `for i in 0..len { BUFFER_A.set(i, BUFFER_A.get(i) * scalar); }`. -/
def scaleLoop (scalar : α) (len i : Nat) (st : KernelState α) : KernelState α :=
  if i < len then scaleLoop scalar len (i + 1) (setBufferA st i (st.bufferA i * scalar)) else st
termination_by len - i
decreasing_by omega

/-- `pub extern "C" fn scale(scalar: f64, len: u32)`: clamp the length to
`CAPACITY` and multiply `BUFFER_A` in place by `scalar`. -/
def scale (scalar : α) (n : Nat) (st : KernelState α) : KernelState α :=
  scaleLoop scalar (min n CAPACITY) 0 st

/-- The unrolled main loop of `sum_simd`:
`while i + 3 < len { sum0 += A[i]; sum1 += A[i+1]; sum2 += A[i+2]; sum3 += A[i+3]; i += 4; }`.
Returns the final loop index together with the four accumulators. -/
def simdMainLoop (A : Nat → α) (len i : Nat) (s0 s1 s2 s3 : α) :
    Nat × α × α × α × α :=
  if i + 3 < len then
    simdMainLoop A len (i + 4) (s0 + A i) (s1 + A (i + 1)) (s2 + A (i + 2)) (s3 + A (i + 3))
  else (i, s0, s1, s2, s3)
termination_by len - i
decreasing_by omega

/-- The remainder loop of `sum_simd`: `while i < len { sum0 += A[i]; i += 1; }`. -/
def simdRemLoop (A : Nat → α) (len i : Nat) (s0 : α) : α :=
  if i < len then simdRemLoop A len (i + 1) (s0 + A i) else s0
termination_by len - i
decreasing_by omega

/-- `pub extern "C" fn sum_simd(len: u32) -> f64`: clamp the length to
`CAPACITY`, run the 4-way unrolled loop, fold the leftover elements into
`sum0` and return `sum0 + sum1 + sum2 + sum3` (left associated, as written
in the source).  The body performs only `get` reads, so the state is
returned unchanged. -/
def sum_simd (n : Nat) (st : KernelState α) : α × KernelState α :=
  let len := min n CAPACITY
  let m := simdMainLoop st.bufferA len 0 0 0 0 0
  (simdRemLoop st.bufferA len m.1 m.2.1 + m.2.2.1 + m.2.2.2.1 + m.2.2.2.2, st)

/-- `pub extern "C" fn get_capacity() -> u32` returns `CAPACITY as u32`. -/
def get_capacity : Nat := CAPACITY

/-! ### Specification-side definitions -/

/-- The window `A[0..n)` of a buffer, as a list. -/
def window (A : Nat → α) (n : Nat) : List α := (List.range n).map A

/-- Left-to-right sequential accumulation of a list of scalars, starting
from `0`: the running total `s = s + x` for each element `x` in order. -/
def seqFold (l : List α) : α := l.foldl (fun s x => s + x) 0

/-! ### Loop characterizations -/

/-- `sumLoop` folds `A` over the remaining indices `i, i+1, ..., len-1`. -/
theorem sumLoop_eq (A : Nat → α) (len i : Nat) (s : α) :
    sumLoop A len i s = ((List.range' i (len - i)).map A).foldl (fun a b => a + b) s := by
  unfold sumLoop
  split
  · rw [sumLoop_eq]
    have h1 : len - i = (len - (i + 1)) + 1 := by omega
    rw [h1, List.range'_succ]
    simp
  · have h0 : len - i = 0 := by omega
    simp [h0]
termination_by len - i
decreasing_by omega

/-- `dotLoop` folds the pairwise products over the remaining indices. -/
theorem dotLoop_eq (A B : Nat → α) (len i : Nat) (d : α) :
    dotLoop A B len i d =
      ((List.range' i (len - i)).map (fun j => A j * B j)).foldl (fun a b => a + b) d := by
  unfold dotLoop
  split
  · rw [dotLoop_eq]
    have h1 : len - i = (len - (i + 1)) + 1 := by omega
    rw [h1, List.range'_succ]
    simp
  · have h0 : len - i = 0 := by omega
    simp [h0]
termination_by len - i
decreasing_by omega

/-- `simdRemLoop` behaves like the sequential loop on the leftover indices. -/
theorem simdRemLoop_eq (A : Nat → α) (len i : Nat) (s0 : α) :
    simdRemLoop A len i s0 = ((List.range' i (len - i)).map A).foldl (fun a b => a + b) s0 := by
  unfold simdRemLoop
  split
  · rw [simdRemLoop_eq]
    have h1 : len - i = (len - (i + 1)) + 1 := by omega
    rw [h1, List.range'_succ]
    simp
  · have h0 : len - i = 0 := by omega
    simp [h0]
termination_by len - i
decreasing_by omega

/-- `simdMainLoop` runs `(len - i) / 4` iterations; accumulator `j`
(for `j = 0, 1, 2, 3`) folds `A` over the stride-4 index list starting at
`i + j`, and the loop exits at index `i + 4 * ((len - i) / 4)`. -/
theorem simdMainLoop_eq (A : Nat → α) (len i : Nat) (s0 s1 s2 s3 : α) :
    simdMainLoop A len i s0 s1 s2 s3 =
      (i + 4 * ((len - i) / 4),
       ((List.range' i ((len - i) / 4) 4).map A).foldl (fun a b => a + b) s0,
       ((List.range' (i + 1) ((len - i) / 4) 4).map A).foldl (fun a b => a + b) s1,
       ((List.range' (i + 2) ((len - i) / 4) 4).map A).foldl (fun a b => a + b) s2,
       ((List.range' (i + 3) ((len - i) / 4) 4).map A).foldl (fun a b => a + b) s3) := by
  unfold simdMainLoop
  split
  · rw [simdMainLoop_eq]
    have hq : (len - i) / 4 = (len - (i + 4)) / 4 + 1 := by omega
    rw [hq]
    simp only [List.range'_succ, List.map_cons, List.foldl_cons, Prod.mk.injEq]
    exact ⟨by omega, trivial⟩
  · have hq : (len - i) / 4 = 0 := by omega
    simp [hq]
termination_by len - i
decreasing_by omega

/-- `mulLoop` never writes buffer `A`. -/
theorem mulLoop_bufferA (len i : Nat) (st : KernelState α) :
    (mulLoop len i st).bufferA = st.bufferA := by
  unfold mulLoop
  split
  · rw [mulLoop_bufferA]; rfl
  · rfl
termination_by len - i
decreasing_by omega

/-- `mulLoop` never writes buffer `B`. -/
theorem mulLoop_bufferB (len i : Nat) (st : KernelState α) :
    (mulLoop len i st).bufferB = st.bufferB := by
  unfold mulLoop
  split
  · rw [mulLoop_bufferB]; rfl
  · rfl
termination_by len - i
decreasing_by omega

/-- `mulLoop` stores the elementwise product at every remaining index and
leaves the other `RESULT` entries as they were. -/
theorem mulLoop_result (len i : Nat) (st : KernelState α) (j : Nat) :
    (mulLoop len i st).result j =
      if i ≤ j ∧ j < len then st.bufferA j * st.bufferB j else st.result j := by
  unfold mulLoop
  split
  · next h =>
    rw [mulLoop_result]
    simp only [setResult]
    by_cases hj : j = i
    · subst hj
      have h1 : ¬(j + 1 ≤ j ∧ j < len) := by omega
      have h2 : j ≤ j ∧ j < len := by omega
      simp [h1, h2]
    · by_cases hi : i + 1 ≤ j ∧ j < len
      · have hi' : i ≤ j ∧ j < len := by omega
        simp [hi, hi']
      · have hi' : ¬(i ≤ j ∧ j < len) := by omega
        simp [hi, hi', hj]
  · next h =>
    have h1 : ¬(i ≤ j ∧ j < len) := by omega
    simp [h1]
termination_by len - i
decreasing_by omega

/-- `scaleLoop` never writes buffer `B`. -/
theorem scaleLoop_bufferB (scalar : α) (len i : Nat) (st : KernelState α) :
    (scaleLoop scalar len i st).bufferB = st.bufferB := by
  unfold scaleLoop
  split
  · rw [scaleLoop_bufferB]; rfl
  · rfl
termination_by len - i
decreasing_by omega

/-- `scaleLoop` never writes the `RESULT` buffer. -/
theorem scaleLoop_result (scalar : α) (len i : Nat) (st : KernelState α) :
    (scaleLoop scalar len i st).result = st.result := by
  unfold scaleLoop
  split
  · rw [scaleLoop_result]; rfl
  · rfl
termination_by len - i
decreasing_by omega

/-- `scaleLoop` multiplies every remaining entry of buffer `A` by `scalar`
exactly once and leaves the other entries as they were. -/
theorem scaleLoop_bufferA (scalar : α) (len i : Nat) (st : KernelState α) (j : Nat) :
    (scaleLoop scalar len i st).bufferA j =
      if i ≤ j ∧ j < len then st.bufferA j * scalar else st.bufferA j := by
  unfold scaleLoop
  split
  · next h =>
    rw [scaleLoop_bufferA]
    simp only [setBufferA]
    by_cases hj : j = i
    · subst hj
      have h1 : ¬(j + 1 ≤ j ∧ j < len) := by omega
      have h2 : j ≤ j ∧ j < len := by omega
      simp [h1, h2]
    · by_cases hi : i + 1 ≤ j ∧ j < len
      · have hi' : i ≤ j ∧ j < len := by omega
        simp [hi, hi', hj]
      · have hi' : ¬(i ≤ j ∧ j < len) := by omega
        simp [hi, hi', hj]
  · next h =>
    have h1 : ¬(i ≤ j ∧ j < len) := by omega
    simp [h1]
termination_by len - i
decreasing_by omega

/-! ### Access-index traces

Every buffer read (`StaticBuffer::get`) and write (`StaticBuffer::set`) in
the source is unchecked, so safety rests on every accessed index being
`< CAPACITY`.  The following definitions record, for each operation, the
indices its loops pass to `get`/`set` when run with effective length `len`,
mirroring the loop structure of the source. -/

/-- Indices accessed by `sum`: `BUFFER_A.get(i)` for `i in 0..len`. -/
def sumAccess (len : Nat) : List Nat := List.range len

/-- Indices accessed by `dot`: `BUFFER_A.get(i)` and `BUFFER_B.get(i)` for
`i in 0..len`. -/
def dotAccess (len : Nat) : List Nat := List.range len

/-- Indices accessed by `mul`: reads of `A` and `B` and writes of `RESULT`
at `i` for `i in 0..len`. -/
def mulAccess (len : Nat) : List Nat := List.range len

/-- Indices accessed by `scale`: reads and writes of `A` at `i` for
`i in 0..len`. -/
def scaleAccess (len : Nat) : List Nat := List.range len

/-- Indices accessed by the remainder loop of `sum_simd` from index `i`. -/
def simdRemAccess (len i : Nat) : List Nat :=
  if i < len then i :: simdRemAccess len (i + 1) else []
termination_by len - i
decreasing_by omega

/-- Indices accessed by `sum_simd` from index `i`: the unrolled loop reads
`i`, `i + 1`, `i + 2`, `i + 3` while `i + 3 < len`, then the remainder loop
takes over at the index where the unrolled loop stopped. -/
def simdAccess (len i : Nat) : List Nat :=
  if i + 3 < len then i :: (i + 1) :: (i + 2) :: (i + 3) :: simdAccess len (i + 4)
  else simdRemAccess len i
termination_by len - i
decreasing_by omega

/-- Every index in the remainder-loop trace is below `len`. -/
theorem simdRemAccess_lt (len i j : Nat) (hj : j ∈ simdRemAccess len i) : j < len := by
  unfold simdRemAccess at hj
  split at hj
  · rcases List.mem_cons.mp hj with h | h
    · omega
    · exact simdRemAccess_lt len (i + 1) j h
  · simp at hj
termination_by len - i
decreasing_by omega

/-- Every index in the `sum_simd` trace is below `len`: the guard
`i + 3 < len` keeps all four indices of an unrolled iteration in range. -/
theorem simdAccess_lt (len i j : Nat) (hj : j ∈ simdAccess len i) : j < len := by
  unfold simdAccess at hj
  split at hj
  · rcases List.mem_cons.mp hj with h | h
    · omega
    · rcases List.mem_cons.mp h with h' | h'
      · omega
      · rcases List.mem_cons.mp h' with h'' | h''
        · omega
        · rcases List.mem_cons.mp h'' with h3 | h3
          · omega
          · exact simdAccess_lt len (i + 4) j h3
  · exact simdRemAccess_lt len i j hj
termination_by len - i
decreasing_by omega

/-! ### Specification-side reference for `sum_simd` -/

/-- Reference algorithm for `sum_simd`, written from the specification's
description: with `q = n / 4` full unrolled iterations, partial sum `j`
(for `j = 0, 1, 2, 3`) accumulates the elements `A[4*t + j]` for
`t = 0, ..., q - 1`; the remainder (the `n - 4*q` leftover elements, in
increasing index order) is folded into `sum0`; the result is the
fixed-order total `((sum0 + sum1) + sum2) + sum3`. -/
def sumSimdRef (A : Nat → α) (n : Nat) : α :=
  let q := n / 4
  let sum0 := seqFold ((List.range q).map fun t => A (4 * t))
  let sum1 := seqFold ((List.range q).map fun t => A (4 * t + 1))
  let sum2 := seqFold ((List.range q).map fun t => A (4 * t + 2))
  let sum3 := seqFold ((List.range q).map fun t => A (4 * t + 3))
  let rem := ((List.range' (4 * q) (n - 4 * q)).map A).foldl (fun s x => s + x) sum0
  rem + sum1 + sum2 + sum3

/-- A stride-4 `range'` is the image of `range` under `t ↦ s + 4 * t`. -/
theorem range'_step_four (s q : Nat) :
    List.range' s q 4 = (List.range q).map (fun t => s + 4 * t) := by
  induction q generalizing s with
  | zero => simp
  | succ q ih =>
      rw [List.range'_succ, ih, List.range_succ_eq_map]
      simp only [List.map_cons, List.map_map, Nat.mul_zero, Nat.add_zero]
      congr 1
      apply List.map_congr_left
      intro t _
      simp [Function.comp]
      omega

/-- The pairwise-product window `A[i]*B[i]` for `i in [0, n)`, as a list. -/
def prodWindow (A B : Nat → α) (n : Nat) : List α :=
  (List.range n).map fun i => A i * B i

/-- A concrete buffer state over the integers, used by the witnesses below
(the theorems hold for any scalar type with `0`, `+`, `*`, in particular
for IEEE-754 doubles; the integers make the witnesses kernel-computable). -/
def stW : KernelState Int where
  bufferA := fun i => (i : Int) + 1
  bufferB := fun i => 2 * (i : Int) + 1
  result := fun _ => (7 : Int)

/-! ### Claim theorems -/

/-- C1: for every requested length `n` with `0 ≤ n ≤ capacity` and every
contents of buffer `A`, `sum(n)` returns the left-to-right sequential
accumulation of `A[0..n)`: starting from `0` and computing `s = s + A[i]`
for `i = 0, 1, ..., n-1` in increasing order. -/
theorem sum_spec (n : Nat) (h : n ≤ CAPACITY) (st : KernelState α) :
    (sum n st).1 = seqFold (window st.bufferA n) := by
  have hmin : min n CAPACITY = n := min_eq_left h
  simp only [sum, hmin, sumLoop_eq, Nat.sub_zero, seqFold, window]
  rw [List.range_eq_range']

/-- Witness for C1 at `n = 3` on a concrete integer state. -/
theorem sum_spec_witness :
    3 ≤ CAPACITY ∧ (sum 3 stW).1 = seqFold (window stW.bufferA 3) :=
  ⟨by decide, sum_spec 3 (by decide) stW⟩

/-- C2: for every requested length `n` with `0 ≤ n ≤ capacity` and every
contents of buffers `A` and `B`, `dot(n)` returns the left-to-right
sequential accumulation of the pairwise products `A[i]*B[i]` for
`i = 0, 1, ..., n-1` in increasing order, starting from `0`. -/
theorem dot_spec (n : Nat) (h : n ≤ CAPACITY) (st : KernelState α) :
    (dot n st).1 = seqFold (prodWindow st.bufferA st.bufferB n) := by
  have hmin : min n CAPACITY = n := min_eq_left h
  simp only [dot, hmin, dotLoop_eq, Nat.sub_zero, seqFold, prodWindow]
  rw [List.range_eq_range']

/-- Witness for C2 at `n = 3` on a concrete integer state. -/
theorem dot_spec_witness :
    3 ≤ CAPACITY ∧ (dot 3 stW).1 = seqFold (prodWindow stW.bufferA stW.bufferB 3) :=
  ⟨by decide, dot_spec 3 (by decide) stW⟩

/-- C3: for every requested length `n` with `0 ≤ n ≤ capacity` and every
buffer state, after `mul(n)` the `RESULT` buffer holds `A[i]*B[i]` at every
`i < n` and is unchanged at every `i ≥ n`. -/
theorem mul_spec (n : Nat) (h : n ≤ CAPACITY) (st : KernelState α) :
    (∀ i, i < n → (mul n st).result i = st.bufferA i * st.bufferB i) ∧
    (∀ i, n ≤ i → (mul n st).result i = st.result i) := by
  have hmin : min n CAPACITY = n := min_eq_left h
  constructor
  · intro i hi
    simp only [mul, hmin, mulLoop_result]
    exact if_pos ⟨Nat.zero_le i, hi⟩
  · intro i hi
    simp only [mul, hmin, mulLoop_result]
    exact if_neg (by omega)

/-- Witness for C3 at `n = 2` on a concrete integer state. -/
theorem mul_spec_witness :
    2 ≤ CAPACITY ∧ (mul 2 stW).result 1 = stW.bufferA 1 * stW.bufferB 1 ∧
      (mul 2 stW).result 5 = stW.result 5 :=
  ⟨by decide, (mul_spec 2 (by decide) stW).1 1 (by decide),
    (mul_spec 2 (by decide) stW).2 5 (by decide)⟩

/-- C4: for every scalar `k` and every requested length `n` with
`0 ≤ n ≤ capacity`, after `scale(k, n)` buffer `A` holds `original_A[i]*k`
at every `i < n`, is unchanged at every `i ≥ n`, and buffers `B` and
`RESULT` are entirely unchanged: `scale` mutates only buffer `A`, in place. -/
theorem scale_spec (k : α) (n : Nat) (h : n ≤ CAPACITY) (st : KernelState α) :
    (∀ i, i < n → (scale k n st).bufferA i = st.bufferA i * k) ∧
    (∀ i, n ≤ i → (scale k n st).bufferA i = st.bufferA i) ∧
    (scale k n st).bufferB = st.bufferB ∧
    (scale k n st).result = st.result := by
  have hmin : min n CAPACITY = n := min_eq_left h
  refine ⟨?_, ?_, ?_, ?_⟩
  · intro i hi
    simp only [scale, hmin, scaleLoop_bufferA]
    exact if_pos ⟨Nat.zero_le i, hi⟩
  · intro i hi
    simp only [scale, hmin, scaleLoop_bufferA]
    exact if_neg (by omega)
  · simp only [scale, hmin, scaleLoop_bufferB]
  · simp only [scale, hmin, scaleLoop_result]

/-- Witness for C4 at `k = 3`, `n = 2` on a concrete integer state. -/
theorem scale_spec_witness :
    2 ≤ CAPACITY ∧ (scale 3 2 stW).bufferA 1 = stW.bufferA 1 * 3 ∧
      (scale 3 2 stW).bufferA 6 = stW.bufferA 6 ∧
      (scale 3 2 stW).bufferB = stW.bufferB ∧
      (scale 3 2 stW).result = stW.result :=
  ⟨by decide, (scale_spec 3 2 (by decide) stW).1 1 (by decide),
    (scale_spec 3 2 (by decide) stW).2.1 6 (by decide),
    (scale_spec 3 2 (by decide) stW).2.2.1,
    (scale_spec 3 2 (by decide) stW).2.2.2⟩

/-- C5: for every requested length `n` with `0 ≤ n ≤ capacity`, `sum_simd(n)`
returns exactly the value of the reference algorithm: four independent
partial sums over the stride-4 index classes with the main loop guarded by
`i + 3 < n`, a remainder loop folding the final `0`–`3` leftover elements
into `sum0` in increasing index order, and the fixed-order final total
`((sum0 + sum1) + sum2) + sum3`. -/
theorem sum_simd_spec (n : Nat) (h : n ≤ CAPACITY) (st : KernelState α) :
    (sum_simd n st).1 = sumSimdRef st.bufferA n := by
  have hmin : min n CAPACITY = n := min_eq_left h
  simp only [sum_simd, hmin, simdMainLoop_eq, simdRemLoop_eq, sumSimdRef, seqFold,
    Nat.sub_zero, Nat.zero_add, Nat.add_zero]
  rw [range'_step_four, range'_step_four, range'_step_four, range'_step_four]
  have e0 : (fun t => 0 + 4 * t) = (fun t : Nat => 4 * t) := by funext t; omega
  have e1 : (fun t => 1 + 4 * t) = (fun t : Nat => 4 * t + 1) := by funext t; omega
  have e2 : (fun t => 2 + 4 * t) = (fun t : Nat => 4 * t + 2) := by funext t; omega
  have e3 : (fun t => 3 + 4 * t) = (fun t : Nat => 4 * t + 3) := by funext t; omega
  rw [e0, e1, e2, e3]
  simp only [List.map_map, Function.comp_def]

/-- Witness for C5 at `n = 6` (one full unrolled iteration plus a
two-element remainder) on a concrete integer state. -/
theorem sum_simd_spec_witness :
    6 ≤ CAPACITY ∧ (sum_simd 6 stW).1 = sumSimdRef stW.bufferA 6 :=
  ⟨by decide, sum_simd_spec 6 (by decide) stW⟩

/-- C6: for every requested length `n > capacity` (up to the maximum 32-bit
unsigned value), each of the five operations behaves identically (same return
value and same final buffer state) to invoking it with `n = capacity`. -/
theorem clamp_spec (n : Nat) (h1 : CAPACITY < n) (h2 : n < 2 ^ 32)
    (k : α) (st : KernelState α) :
    sum n st = sum CAPACITY st ∧ dot n st = dot CAPACITY st ∧
    mul n st = mul CAPACITY st ∧ scale k n st = scale k CAPACITY st ∧
    sum_simd n st = sum_simd CAPACITY st := by
  have hmin : min n CAPACITY = CAPACITY := min_eq_right (Nat.le_of_lt h1)
  have hmin2 : min CAPACITY CAPACITY = CAPACITY := min_self CAPACITY
  refine ⟨?_, ?_, ?_, ?_, ?_⟩ <;>
    simp only [sum, dot, mul, scale, sum_simd, hmin, hmin2]

/-- Witness for C6 at `n = 100001 = capacity + 1` on a concrete integer state. -/
theorem clamp_spec_witness :
    CAPACITY < 100001 ∧ (100001 : Nat) < 2 ^ 32 ∧
      sum 100001 stW = sum CAPACITY stW ∧ dot 100001 stW = dot CAPACITY stW ∧
      mul 100001 stW = mul CAPACITY stW ∧
      scale 3 100001 stW = scale 3 CAPACITY stW ∧
      sum_simd 100001 stW = sum_simd CAPACITY stW :=
  ⟨by decide, by decide,
    (clamp_spec 100001 (by decide) (by decide) 3 stW).1,
    (clamp_spec 100001 (by decide) (by decide) 3 stW).2.1,
    (clamp_spec 100001 (by decide) (by decide) 3 stW).2.2.1,
    (clamp_spec 100001 (by decide) (by decide) 3 stW).2.2.2.1,
    (clamp_spec 100001 (by decide) (by decide) 3 stW).2.2.2.2⟩

/-- C7: for every 32-bit requested length `n`, every index passed to the
unchecked accessors `get`/`set` by any of the five operations (with
effective length `min n CAPACITY`) is strictly below `CAPACITY`, so no
operation reads or writes outside the three fixed buffers. -/
theorem kernel_accesses_in_bounds (n : Nat) (h : n < 2 ^ 32) :
    (∀ j ∈ sumAccess (min n CAPACITY), j < CAPACITY) ∧
    (∀ j ∈ dotAccess (min n CAPACITY), j < CAPACITY) ∧
    (∀ j ∈ mulAccess (min n CAPACITY), j < CAPACITY) ∧
    (∀ j ∈ scaleAccess (min n CAPACITY), j < CAPACITY) ∧
    (∀ j ∈ simdAccess (min n CAPACITY) 0, j < CAPACITY) := by
  have hle : min n CAPACITY ≤ CAPACITY := min_le_right _ _
  refine ⟨?_, ?_, ?_, ?_, ?_⟩ <;> intro j hj
  · have := List.mem_range.mp hj; omega
  · have := List.mem_range.mp hj; omega
  · have := List.mem_range.mp hj; omega
  · have := List.mem_range.mp hj; omega
  · have := simdAccess_lt _ _ _ hj; omega

/-- Witness for C7 at `n = 7`, checking a sequential index and a
`sum_simd` remainder-loop index. -/
theorem kernel_accesses_in_bounds_witness : 2 < CAPACITY ∧ 5 < CAPACITY := by
  have h7 : (7 : Nat) < 2 ^ 32 := by norm_num
  have h2 : 2 ∈ sumAccess (min 7 CAPACITY) := by decide
  have h5 : 5 ∈ simdAccess (min 7 CAPACITY) 0 := by
    simp [simdAccess, simdRemAccess, CAPACITY]
  exact ⟨(kernel_accesses_in_bounds 7 h7).1 2 h2,
    (kernel_accesses_in_bounds 7 h7).2.2.2.2 5 h5⟩

/-- C9: for every requested length and every buffer state, `sum`, `dot` and
`sum_simd` leave all three buffers unchanged; `mul` leaves `A` and `B`
unchanged; and repeating `sum`, `dot` or `sum_simd` with the same argument
on the state left by the first call returns the same value. -/
theorem readonly_frame_spec (n : Nat) (st : KernelState α) :
    (sum n st).2 = st ∧ (dot n st).2 = st ∧ (sum_simd n st).2 = st ∧
    (mul n st).bufferA = st.bufferA ∧ (mul n st).bufferB = st.bufferB ∧
    (sum n ((sum n st).2)).1 = (sum n st).1 ∧
    (dot n ((dot n st).2)).1 = (dot n st).1 ∧
    (sum_simd n ((sum_simd n st).2)).1 = (sum_simd n st).1 := by
  refine ⟨rfl, rfl, rfl, ?_, ?_, rfl, rfl, rfl⟩
  · simp only [mul, mulLoop_bufferA]
  · simp only [mul, mulLoop_bufferB]

end VecKernel
